import Mathlib

/-!
Verification of the SDAT detail-page scraper (`sdat.py`).

The scraper parses an HTML page into a tree, locates the table with id
`detailSearch`, and extracts owner mailing-address lines and transfer
records from two labelled sections.  This file gives a shallow embedding
of the parsed-document data model (an HTML node tree with the BeautifulSoup
operations `find_all`, `find`, `get_text` used by the code) and of each
function of the `ScrapeSDAT` class, together with theorems settling the
specification claims.

Python string operations are embedded as executable functions over
`List Char` (Lean's own `String.splitOn` and friends are implemented by
well-founded recursion and do not reduce definitionally, so structurally
recursive equivalents are defined here).  Python exceptions are embedded
by `Except PyErr`; a Python function that can return `None` returns an
`Option`.
-/

namespace SDAT

/-- A node of the parsed HTML document: either a text node or an element
with a tag name, an attribute list and a list of children. -/
inductive Node where
  | text : String → Node
  | elem : String → List (String × String) → List Node → Node

/-- Drop trailing whitespace characters. -/
def dropTrailWs (l : List Char) : List Char :=
  (l.reverse.dropWhile Char.isWhitespace).reverse

/-- Embedding of Python `str.strip()`: drop leading and trailing
whitespace characters. -/
def trimWs (l : List Char) : List Char :=
  dropTrailWs (l.dropWhile Char.isWhitespace)

/-- Accumulator loop implementing Python `str.split()` with no argument:
split on runs of whitespace, producing no empty segments.  `cur` holds the
(reversed) word being scanned. -/
def pyWordsAcc (cur : List Char) : List Char → List (List Char)
  | [] => if cur.isEmpty then [] else [cur.reverse]
  | c :: cs =>
    if c.isWhitespace then
      if cur.isEmpty then pyWordsAcc [] cs
      else cur.reverse :: pyWordsAcc [] cs
    else pyWordsAcc (c :: cur) cs

/-- Embedding of Python `str.split()` (no argument). -/
def pyWords (l : List Char) : List (List Char) := pyWordsAcc [] l

/-- Embedding of Python `' '.join(words)`. -/
def joinWords : List (List Char) → List Char
  | [] => []
  | [w] => w
  | w :: ws => w ++ ' ' :: joinWords ws

/-- The header-text normalization used by the code at `sdat.py:56` and
`sdat.py:76`: `' '.join(text.split())`. -/
def normalizeChars (l : List Char) : List Char := joinWords (pyWords l)

/-- String-level wrapper of `normalizeChars`. -/
def normalize (s : String) : String := String.mk (normalizeChars s.toList)

/-- Whitespace-run collapsing, written directly from the specification's
words: every maximal run of whitespace characters becomes a single space.
`prevWs` records whether the previous character belonged to a run whose
space has already been emitted. -/
def collapseAux (prevWs : Bool) : List Char → List Char
  | [] => []
  | c :: cs =>
    if c.isWhitespace then
      if prevWs then collapseAux true cs
      else ' ' :: collapseAux true cs
    else c :: collapseAux false cs

/-- Collapse each maximal whitespace run to a single space. -/
def collapseRuns (l : List Char) : List Char := collapseAux false l

/-- Normalization as the specification words it: trim the text, then
collapse all internal whitespace runs to single spaces. -/
def specNormalize (s : String) : String := String.mk (collapseRuns (trimWs s.toList))

/-- Fuelled embedding of Python `str.split(sep)` for a nonempty `sep`:
scan left to right; at each position where `sep` is a prefix, cut a
segment boundary and skip over `sep`.  Empty segments are kept.  Each
step consumes at least one character, so any `fuel > length` computes the
splitting exactly. -/
def pySplitFuel (sep : List Char) : Nat → List Char → List (List Char)
  | _, [] => [[]]
  | 0, l => [l]
  | fuel + 1, c :: cs =>
    if sep.isPrefixOf (c :: cs) ∧ sep ≠ [] then
      [] :: pySplitFuel sep fuel ((c :: cs).drop sep.length)
    else
      match pySplitFuel sep fuel cs with
      | [] => [[c]]
      | w :: ws => (c :: w) :: ws

/-- Embedding of Python `str.split(sep)`. -/
def pySplitOn (sep l : List Char) : List (List Char) := pySplitFuel sep (l.length + 1) l

mutual
/-- All text-node strings in a subtree, in document order (bs4 `strings`). -/
def textStrings : Node → List String
  | .text s => [s]
  | .elem _ _ cs => textStringsList cs

/-- Text-node strings of a list of sibling subtrees, in order. -/
def textStringsList : List Node → List String
  | [] => []
  | c :: cs => textStrings c ++ textStringsList cs
end

mutual
/-- All descendant nodes in document (preorder) order; the traversal
underlying bs4 `find_all` / `find`. -/
def descendants : Node → List Node
  | .text _ => []
  | .elem _ _ cs => descendantsList cs

/-- Descendants of a list of sibling subtrees: each sibling followed by
its own descendants, in order. -/
def descendantsList : List Node → List Node
  | [] => []
  | c :: cs => c :: (descendants c ++ descendantsList cs)
end

/-- Tag-name test for an element node. -/
def isTag (tag : String) : Node → Bool
  | .text _ => false
  | .elem t _ _ => t == tag

/-- Attribute lookup on an element node. -/
def attrOf (key : String) : Node → Option String
  | .text _ => none
  | .elem _ attrs _ => (attrs.find? (fun p => p.1 == key)).map (·.2)

/-- bs4 `find_all(pred)`: all matching descendants in document order. -/
def findAll (p : Node → Bool) (n : Node) : List Node := (descendants n).filter p

/-- bs4 `find(pred)`: the first matching descendant, or `none`. -/
def findFirst (p : Node → Bool) (n : Node) : Option Node := (findAll p n).head?

/-- bs4 `get_text()`: concatenation of all text-node strings of the
subtree. -/
def getTextChars (n : Node) : List Char := (textStrings n).flatMap String.toList

/-- Join a list of segments with a separator (Python `sep.join`). -/
def joinSep (sep : List Char) : List (List Char) → List Char
  | [] => []
  | [w] => w
  | w :: ws => w ++ sep ++ joinSep sep ws

/-- bs4 `get_text(strip=True, separator=sep)`: every text-node string is
stripped, empty results are skipped, and the survivors are joined with
`sep`. -/
def getTextStripChars (sep : List Char) (n : Node) : List Char :=
  joinSep sep (((textStrings n).map (fun s => trimWs s.toList)).filter (fun w => !w.isEmpty))

/-- Python exceptions (and, for comparison with the specification's error
taxonomy, the named `StructureNotFoundError` the specification posits;
nothing in the code raises it). -/
inductive PyErr where
  | typeError
  | indexError
  | attributeError
  | structureNotFound
deriving DecidableEq

/-- The line-break separator `"<br/>"` used by `get_owner_info` and
`get_transfer_info`. -/
def brSep : List Char := "<br/>".toList

/-- Marker text of the owner section. -/
def ownerMarker : List Char := "Owner Information".toList

/-- Marker text of the transfer section. -/
def transferMarker : List Char := "Transfer Information".toList

/-- The inner loop of `_parse_owner_info` (`sdat.py:55`): some header
cell (`th`) of the row has normalized text `"Owner Information"`. -/
def rowIsOwnerMarker (row : Node) : Bool :=
  (findAll (isTag "th") row).any fun th => normalizeChars (getTextChars th) == ownerMarker

/-- The inner loop of `_parse_transfer_info` (`sdat.py:75`): some header
cell of the row has normalized text `"Transfer Information"`. -/
def rowIsTransferMarker (row : Node) : Bool :=
  (findAll (isTag "th") row).any fun th => normalizeChars (getTextChars th) == transferMarker

/-- Row loop of `_parse_owner_info` (`sdat.py:51`): once the marker row is
seen, return the slice `rows[i+1 : i+3]`; if the loop ends (no marker, or
the marker row is last) the Python function returns `None`. -/
def parse_owner_rows : List Node → Option (List Node)
  | [] => none
  | r :: rs =>
    if rowIsOwnerMarker r then
      if rs.isEmpty then none else some (rs.take 2)
    else parse_owner_rows rs

/-- `ScrapeSDAT._parse_owner_info` (`sdat.py:41`). -/
def parse_owner_info (table : Node) : Option (List Node) :=
  parse_owner_rows (findAll (isTag "tr") table)

/-- Row loop of `_parse_transfer_info` (`sdat.py:70`): once the marker row
is seen, the next row's first `td` is taken (`row.find('td')`; if that is
`None` the attribute access `td.find` raises `AttributeError`) and its
first nested table returned (possibly `None`). -/
def parse_transfer_rows : List Node → Except PyErr (Option Node)
  | [] => .ok none
  | r :: rs =>
    if rowIsTransferMarker r then
      match rs with
      | [] => .ok none
      | r2 :: _ =>
        match findFirst (isTag "td") r2 with
        | none => .error .attributeError
        | some td => .ok (findFirst (isTag "table") td)
    else parse_transfer_rows rs

/-- `ScrapeSDAT._parse_transfer_info` (`sdat.py:60`). -/
def parse_transfer_info (table : Node) : Except PyErr (Option Node) :=
  parse_transfer_rows (findAll (isTag "tr") table)

/-- The per-row text extraction of `get_owner_info` (`sdat.py:92`):
`tds[1].get_text(strip=True, separator="<br/>").split("<br/>")`. -/
def cellParts (td : Node) : List String :=
  (pySplitOn brSep (getTextStripChars brSep td)).map String.mk

/-- Loop body of `get_owner_info` (`sdat.py:90`): for each row take
`row.find_all('td')[1]` (raising `IndexError` when there is no second
data cell) and append its split segments in order. -/
def ownerRowsTexts : List Node → Except PyErr (List String)
  | [] => .ok []
  | row :: rs =>
    match (findAll (isTag "td") row)[1]? with
    | none => .error .indexError
    | some td => (ownerRowsTexts rs).map (cellParts td ++ ·)

/-- `ScrapeSDAT.get_owner_info` (`sdat.py:80`).  When `_parse_owner_info`
returned `None`, iterating over it raises `TypeError`. -/
def get_owner_info (table : Node) : Except PyErr (List String) :=
  match parse_owner_info table with
  | none => .error .typeError
  | some two_rows => ownerRowsTexts two_rows

/-- The fixed label set of `get_transfer_info` (`sdat.py:105`). -/
def validHeaders : List String :=
  ["Seller:", "Date:", "Price:", "Type:", "Deed1:", "Deed2:"]

/-- Cell filter of `get_transfer_info` (`sdat.py:111`): nonempty text,
split on `"<br/>"`, kept only when more than one segment results and the
first segment is in the fixed label set. -/
def cellRecord (td : Node) : Option (List String) :=
  let text := getTextStripChars brSep td
  if text.isEmpty then none
  else
    match pySplitOn brSep text with
    | [] => none
    | h :: t =>
      if t.isEmpty then none
      else if validHeaders.contains (String.mk h) then some ((h :: t).map String.mk)
      else none

/-- The cell-inclusion rule as the claims state it: the split-segment list
is included exactly when it has more than one segment and its first
segment is in the fixed label set (no separate empty-text test). -/
def cellRecordSpec (td : Node) : Option (List String) :=
  let parsed := pySplitOn brSep (getTextStripChars brSep td)
  if 1 < parsed.length ∧ validHeaders.contains (String.mk (parsed.headD [])) then
    some (parsed.map String.mk)
  else none

/-- `ScrapeSDAT.get_transfer_info` (`sdat.py:98`): when the inner table is
`None`, calling `find_all` on it raises `AttributeError`; otherwise every
row of the inner table and every cell of each row is scanned in order. -/
def get_transfer_info (table : Node) : Except PyErr (List (List String)) :=
  match parse_transfer_info table with
  | .error e => .error e
  | .ok none => .error .attributeError
  | .ok (some inner) =>
    .ok ((findAll (isTag "tr") inner).flatMap fun tr =>
      (findAll (isTag "td") tr).filterMap cellRecord)

/-- `ScrapeSDAT.get_table_data` (`sdat.py:33`): `soup.find('table',
id=table_id)`; returns `None` when absent (no exception is raised). -/
def get_table_data (soup : Node) (table_id : String) : Option Node :=
  findFirst (fun n => isTag "table" n && attrOf "id" n == some table_id) soup

/-- Observable result of one `scrape` call: the two printed structures and
the function's return value.  The Python body of `scrape` has no `return`
statement, so the returned value is always `None`. -/
structure ScrapeOutput where
  printedOwner : List String
  printedTransfer : List (List String)
  returned : Option (List String × List (List String))

/-- `ScrapeSDAT.scrape` (`sdat.py:119`) on an already-fetched and parsed
document: locate the `detailSearch` table (when `get_table_data` returns
`None`, the call `None.find_all` inside `_parse_owner_info` raises
`AttributeError`), print the owner info, print the transfer info, and
return `None`. -/
def scrape (doc : Node) : Except PyErr ScrapeOutput :=
  match get_table_data doc "detailSearch" with
  | none => .error .attributeError
  | some table =>
    match get_owner_info table with
    | .error e => .error e
    | .ok owner =>
      match get_transfer_info table with
      | .error e => .error e
      | .ok transfer => .ok ⟨owner, transfer, none⟩

/-- Mutable state of a `ScrapeSDAT` object: the class defines no instance
attributes and its methods assign none, so the state is empty. -/
structure ScrapeSDATState where

/-- A `scrape` call as a state transformer on the scraper object: the
result is a pure function of the document and the state is unchanged. -/
def scrapeSt (s : ScrapeSDATState) (doc : Node) : ScrapeSDATState × Except PyErr ScrapeOutput :=
  (s, scrape doc)

/-- Zero-padding of `main` (`sdat.py:145`): the Python format `f"{n:0w}"`
left-pads the decimal representation with zeros to width `w`. -/
def pad (w : Nat) (n : Nat) : String :=
  let s := toString n
  String.mk (List.replicate (w - s.length) '0') ++ s

/-- The query-parameter construction of `main` (`sdat.py:143`),
generalized over the raw parcel-identifier values. -/
def formatQuery (county ward sect block lot : Nat) : List (String × String) :=
  [("search_type", "ACCT"), ("county", pad 2 county), ("ward", pad 2 ward),
   ("section", pad 2 sect), ("block", pad 4 block), ("lot", pad 3 lot)]

/-- A line-break element; contributes no text strings. -/
def brNode : Node := .elem "br" [] []

/-- Sample owner-section marker row (with untidy whitespace in the header
cell, normalized away by the marker test). -/
def ownerMarkerRow : Node := .elem "tr" [] [.elem "th" [] [.text "  Owner   Information "]]

/-- Sample second data cell of the first owner row. -/
def ownerCell1 : Node := .elem "td" [] [.text "John Doe", brNode, .text "123 Main St"]

/-- Sample second data cell of the second owner row. -/
def ownerCell2 : Node := .elem "td" [] [.text "Baltimore MD"]

/-- First sample owner data row. -/
def ownerRow1 : Node := .elem "tr" [] [.elem "td" [] [.text "Owner Name:"], ownerCell1]

/-- Second sample owner data row. -/
def ownerRow2 : Node := .elem "tr" [] [.elem "td" [] [.text "Mailing Address:"], ownerCell2]

/-- Sample transfer-section marker row. -/
def transferMarkerRow : Node := .elem "tr" [] [.elem "th" [] [.text "Transfer Information"]]

/-- Sample qualifying transfer cell. -/
def sellerCell : Node := .elem "td" [] [.text "Seller:", brNode, .text "Jane Roe"]

/-- Sample multi-segment cell whose first segment is outside the label
set; it must be skipped. -/
def notesCell : Node := .elem "td" [] [.text "Notes:", brNode, .text "ignored"]

/-- Sample qualifying transfer cell. -/
def priceCell : Node := .elem "td" [] [.text "Price:", brNode, .text "$100,000"]

/-- Sample single-segment cell; it must be skipped. -/
def bareCell : Node := .elem "td" [] [.text "Seller:"]

/-- Row of the sample inner transfer table. -/
def innerTr : Node := .elem "tr" [] [sellerCell, notesCell, priceCell, bareCell]

/-- Sample inner transfer table. -/
def innerTable : Node := .elem "table" [] [innerTr]

/-- The sample first data cell holding the inner table. -/
def transferCell : Node := .elem "td" [] [innerTable]

/-- The sample row following the transfer marker. -/
def transferRow : Node := .elem "tr" [] [transferCell]

/-- A sample well-formed `detailSearch` table with both sections. -/
def sampleTable : Node :=
  .elem "table" [("id", "detailSearch")]
    [ownerMarkerRow, ownerRow1, ownerRow2, transferMarkerRow, transferRow]

/-- A sample well-formed document. -/
def sampleDoc : Node := .elem "html" [] [.elem "body" [] [sampleTable]]

/-- An owner data row lacking a second data cell. -/
def badOwnerRow : Node := .elem "tr" [] [.elem "td" [] [.text "only one cell"]]

/-- A table whose owner marker is followed by a malformed data row. -/
def badOwnerTable : Node := .elem "table" [("id", "detailSearch")] [ownerMarkerRow, badOwnerRow]

/-- A data cell holding no nested table. -/
def badTransferCell : Node := .elem "td" [] [.text "no nested table"]

/-- A row whose first data cell holds no nested table. -/
def badTransferRow : Node := .elem "tr" [] [badTransferCell]

/-- A table whose transfer marker is followed by a row without an inner
table. -/
def badTransferTable : Node := .elem "table" [] [transferMarkerRow, badTransferRow]

/-- A table with exactly one row after the owner marker. -/
def singleRowOwnerTable : Node :=
  .elem "table" [("id", "detailSearch")] [ownerMarkerRow, ownerRow1]

/-- A document containing that table. -/
def singleRowOwnerDoc : Node := .elem "html" [] [singleRowOwnerTable]

/-- A document with no `detailSearch` table. -/
def noTableDoc : Node := .elem "html" [] [.elem "table" [("id", "other")] []]

/-- A row carrying the owner marker text in a data cell (`td`), not a
header cell; the marker scan must not trigger on it. -/
def tdMarkerRow : Node := .elem "tr" [] [.elem "td" [] [.text "Owner Information"]]

/-- A table whose only occurrence of the marker text is in a data cell. -/
def tdMarkerTable : Node := .elem "table" [("id", "detailSearch")] [tdMarkerRow, ownerRow1]

/-! ### Helper lemmas about list and whitespace primitives -/

theorem length_dropWhile_le (p : Char → Bool) (l : List Char) :
    (l.dropWhile p).length ≤ l.length := by
  induction l with
  | nil => simp
  | cons c cs ih =>
    by_cases h : p c = true
    · rw [List.dropWhile_cons, if_pos h]
      exact Nat.le_trans ih (Nat.le_succ _)
    · rw [List.dropWhile_cons, if_neg h]

theorem dropWhile_head_false (p : Char → Bool) :
    ∀ (l : List Char) (d : Char) (r : List Char), l.dropWhile p = d :: r → p d = false := by
  intro l
  induction l with
  | nil => intro d r h; simp at h
  | cons c cs ih =>
    intro d r h
    rw [List.dropWhile_cons] at h
    by_cases hc : p c = true
    · rw [if_pos hc] at h
      exact ih d r h
    · rw [if_neg hc] at h
      cases h
      simpa using hc

theorem dropWhile_all_false (p : Char → Bool) (l : List Char)
    (h : ∀ a ∈ l, p a = false) : l.dropWhile p = l := by
  cases l with
  | nil => rfl
  | cons c cs => rw [List.dropWhile_cons, if_neg (by simp [h c (List.mem_cons_self c cs)])]

theorem dropWhile_ne_nil_of_exists (p : Char → Bool) (l : List Char)
    (h : ∃ a ∈ l, p a = false) : l.dropWhile p ≠ [] := by
  intro hnil
  rw [List.dropWhile_eq_nil_iff] at hnil
  rcases h with ⟨a, ha, hpa⟩
  rw [hnil a ha] at hpa
  cases hpa

theorem dropTrailWs_append (x y : List Char) (h : ∃ a ∈ y, a.isWhitespace = false) :
    dropTrailWs (x ++ y) = x ++ dropTrailWs y := by
  unfold dropTrailWs
  have hne : y.reverse.dropWhile Char.isWhitespace ≠ [] := by
    apply dropWhile_ne_nil_of_exists
    rcases h with ⟨a, ha, hpa⟩
    exact ⟨a, List.mem_reverse.mpr ha, hpa⟩
  rw [List.reverse_append, List.dropWhile_append, if_neg (by simpa using hne)]
  simp

theorem dropTrailWs_all_ws (t : List Char) (h : ∀ a ∈ t, a.isWhitespace = true) :
    dropTrailWs t = [] := by
  unfold dropTrailWs
  have ht : t.reverse.dropWhile Char.isWhitespace = [] := by
    rw [List.dropWhile_eq_nil_iff]
    intro x hx
    exact h x (List.mem_reverse.mp hx)
  rw [ht]
  rfl

theorem dropTrailWs_append_ws (x t : List Char) (h : ∀ a ∈ t, a.isWhitespace = true) :
    dropTrailWs (x ++ t) = dropTrailWs x := by
  unfold dropTrailWs
  have ht : t.reverse.dropWhile Char.isWhitespace = [] := by
    rw [List.dropWhile_eq_nil_iff]
    intro a ha
    exact h a (List.mem_reverse.mp ha)
  rw [List.reverse_append, List.dropWhile_append, ht]
  simp

theorem dropTrailWs_all_notWs (w : List Char) (h : ∀ a ∈ w, a.isWhitespace = false) :
    dropTrailWs w = w := by
  unfold dropTrailWs
  rw [dropWhile_all_false _ _ (fun a ha => h a (List.mem_reverse.mp ha)), List.reverse_reverse]

theorem dropTrailWs_cons_notWs (c : Char) (t : List Char) (h : c.isWhitespace = false) :
    dropTrailWs (c :: t) = c :: dropTrailWs t := by
  by_cases ht : ∃ a ∈ t, a.isWhitespace = false
  · have h2 : dropTrailWs ([c] ++ t) = [c] ++ dropTrailWs t := dropTrailWs_append [c] t ht
    simpa using h2
  · have ht' : ∀ a ∈ t, a.isWhitespace = true := by
      intro a ha
      by_contra hb
      exact ht ⟨a, ha, by revert hb; cases a.isWhitespace <;> simp⟩
    have h2 : dropTrailWs (c :: t) = dropTrailWs [c] := dropTrailWs_append_ws [c] t ht'
    have h3 : dropTrailWs [c] = [c] :=
      dropTrailWs_all_notWs [c] (by intro a ha; simp at ha; subst ha; exact h)
    rw [h2, h3, dropTrailWs_all_ws t ht']

/-! ### Helper lemmas about the split-and-join normalization -/

theorem pyWords_cons_ws (c : Char) (cs : List Char) (h : c.isWhitespace = true) :
    pyWords (c :: cs) = pyWords cs := by
  show pyWordsAcc [] (c :: cs) = pyWordsAcc [] cs
  simp [pyWordsAcc, h]

theorem pyWordsAcc_ne_nil_cur :
    ∀ (l cur : List Char), cur ≠ [] →
      pyWordsAcc cur l = (cur.reverse ++ l.takeWhile (fun x => !x.isWhitespace)) ::
        pyWords (l.dropWhile (fun x => !x.isWhitespace)) := by
  intro l
  induction l with
  | nil =>
    intro cur hcur
    simp [pyWordsAcc, List.isEmpty_iff, hcur, pyWords]
  | cons c cs ih =>
    intro cur hcur
    by_cases hc : c.isWhitespace = true
    · have h1 : pyWordsAcc cur (c :: cs) = cur.reverse :: pyWordsAcc [] cs := by
        simp [pyWordsAcc, hc, List.isEmpty_iff, hcur]
      have h2 : (c :: cs).takeWhile (fun x => !x.isWhitespace) = [] := by
        simp [List.takeWhile_cons, hc]
      have h3 : (c :: cs).dropWhile (fun x => !x.isWhitespace) = c :: cs := by
        simp [List.dropWhile_cons, hc]
      rw [h1, h2, h3, List.append_nil, pyWords_cons_ws c cs hc]
      rfl
    · have hc' : c.isWhitespace = false := by revert hc; cases c.isWhitespace <;> simp
      have h1 : pyWordsAcc cur (c :: cs) = pyWordsAcc (c :: cur) cs := by
        simp [pyWordsAcc, hc']
      rw [h1, ih (c :: cur) (by simp)]
      simp [List.takeWhile_cons, List.dropWhile_cons, hc']

theorem pyWords_cons_notWs (c : Char) (cs : List Char) (h : c.isWhitespace = false) :
    pyWords (c :: cs) = (c :: cs.takeWhile (fun x => !x.isWhitespace)) ::
      pyWords (cs.dropWhile (fun x => !x.isWhitespace)) := by
  show pyWordsAcc [] (c :: cs) = _
  have h1 : pyWordsAcc [] (c :: cs) = pyWordsAcc [c] cs := by simp [pyWordsAcc, h]
  rw [h1, pyWordsAcc_ne_nil_cur cs [c] (by simp)]
  simp

theorem pyWords_all_ws (l : List Char) (h : ∀ a ∈ l, a.isWhitespace = true) :
    pyWords l = [] := by
  induction l with
  | nil => rfl
  | cons c cs ih =>
    rw [pyWords_cons_ws c cs (h c (List.mem_cons_self c cs))]
    exact ih (fun a ha => h a (List.mem_cons_of_mem c ha))

theorem pyWords_dropWhile_ws (l : List Char) :
    pyWords (l.dropWhile Char.isWhitespace) = pyWords l := by
  induction l with
  | nil => rfl
  | cons c cs ih =>
    by_cases hc : c.isWhitespace = true
    · rw [List.dropWhile_cons, if_pos hc, ih, pyWords_cons_ws c cs hc]
    · rw [List.dropWhile_cons, if_neg hc]

theorem collapseAux_true_eq (cs : List Char) :
    collapseAux true cs = collapseAux false (cs.dropWhile Char.isWhitespace) := by
  induction cs with
  | nil => rfl
  | cons c cs ih =>
    by_cases hc : c.isWhitespace = true
    · rw [List.dropWhile_cons, if_pos hc]
      simpa [collapseAux, hc] using ih
    · have hc' : c.isWhitespace = false := by revert hc; cases c.isWhitespace <;> simp
      rw [List.dropWhile_cons, if_neg hc]
      simp [collapseAux, hc']

theorem collapseRuns_cons_notWs (c : Char) (cs : List Char) (h : c.isWhitespace = false) :
    collapseRuns (c :: cs) = c :: collapseRuns cs := by
  simp [collapseRuns, collapseAux, h]

theorem collapseRuns_cons_ws (c : Char) (cs : List Char) (h : c.isWhitespace = true) :
    collapseRuns (c :: cs) = ' ' :: collapseRuns (cs.dropWhile Char.isWhitespace) := by
  simp [collapseRuns, collapseAux, h, collapseAux_true_eq]

theorem collapseRuns_append_notWs (w r : List Char) (h : ∀ a ∈ w, a.isWhitespace = false) :
    collapseRuns (w ++ r) = w ++ collapseRuns r := by
  induction w with
  | nil => rfl
  | cons c cs ih =>
    rw [List.cons_append, collapseRuns_cons_notWs c _ (h c (List.mem_cons_self c cs)),
      ih (fun a ha => h a (List.mem_cons_of_mem c ha))]
    rfl

theorem collapseRuns_all_notWs (w : List Char) (h : ∀ a ∈ w, a.isWhitespace = false) :
    collapseRuns w = w := by
  have h2 := collapseRuns_append_notWs w [] h
  simpa [collapseRuns, collapseAux] using h2

theorem joinWords_cons_cons (a b : List Char) (bs : List (List Char)) :
    joinWords (a :: b :: bs) = a ++ ' ' :: joinWords (b :: bs) := rfl

/-- Core equivalence: the code's `' '.join(s.split())` normalization equals
trimming followed by whitespace-run collapsing, stated over character
lists and proved by strong induction on the length. -/
theorem normalizeChars_eq_collapse_trim :
    ∀ (n : Nat) (l : List Char), l.length ≤ n →
      normalizeChars l = collapseRuns (trimWs l) := by
  intro n
  induction n with
  | zero =>
    intro l hl
    have hnil : l = [] := List.eq_nil_of_length_eq_zero (Nat.le_zero.mp hl)
    subst hnil
    rfl
  | succ n ih =>
    intro l hl
    cases l with
    | nil => rfl
    | cons c cs =>
      have hcs : cs.length ≤ n := by
        have : cs.length + 1 ≤ n + 1 := by simpa using hl
        omega
      by_cases hc : c.isWhitespace = true
      · have h1 : normalizeChars (c :: cs) = normalizeChars cs := by
          unfold normalizeChars
          rw [pyWords_cons_ws c cs hc]
        have h2 : trimWs (c :: cs) = trimWs cs := by
          unfold trimWs
          rw [List.dropWhile_cons, if_pos hc]
        rw [h1, h2]
        exact ih cs hcs
      · have hc' : c.isWhitespace = false := by revert hc; cases c.isWhitespace <;> simp
        have h2 : trimWs (c :: cs) = c :: dropTrailWs cs := by
          unfold trimWs
          rw [List.dropWhile_cons, if_neg hc, dropTrailWs_cons_notWs c cs hc']
        rw [h2, collapseRuns_cons_notWs c _ hc']
        unfold normalizeChars
        rw [pyWords_cons_notWs c cs hc']
        have hwall : ∀ a ∈ cs.takeWhile (fun x => !x.isWhitespace), a.isWhitespace = false := by
          intro a ha
          simpa using List.mem_takeWhile_imp ha
        have hsplit : cs.takeWhile (fun x => !x.isWhitespace) ++
            cs.dropWhile (fun x => !x.isWhitespace) = cs :=
          List.takeWhile_append_dropWhile _ _
        cases hrr : cs.dropWhile (fun x => !x.isWhitespace) with
        | nil =>
          have hcw : cs = cs.takeWhile (fun x => !x.isWhitespace) := by
            conv_lhs => rw [← hsplit, hrr]
            simp
          have hdt : dropTrailWs cs = cs := by
            conv_lhs => rw [hcw]
            conv_rhs => rw [hcw]
            exact dropTrailWs_all_notWs _ hwall
          rw [hdt]
          conv_rhs => rw [hcw]
          rw [collapseRuns_all_notWs _ hwall]
          rfl
        | cons d r' =>
          have hd : d.isWhitespace = true := by
            have hx := dropWhile_head_false (fun x => !x.isWhitespace) cs d r' hrr
            simpa using hx
          have hlen6 : (cs.takeWhile (fun x => !x.isWhitespace)).length +
              (r'.length + 1) = cs.length := by
            have h6 := congrArg List.length hsplit
            rw [hrr] at h6
            simpa [List.length_append] using h6
          by_cases hex : ∃ a ∈ r', a.isWhitespace = false
          · -- the rest contains another word
            obtain ⟨e, t2, hr2⟩ : ∃ e t2, r'.dropWhile Char.isWhitespace = e :: t2 := by
              cases hcase : r'.dropWhile Char.isWhitespace with
              | nil => exact absurd hcase (dropWhile_ne_nil_of_exists _ r' hex)
              | cons e t2 => exact ⟨e, t2, rfl⟩
            have he : e.isWhitespace = false := dropWhile_head_false _ r' e t2 hr2
            have her' : e ∈ r' := by
              have hsub := List.dropWhile_sublist (p := Char.isWhitespace) (l := r')
              exact hsub.subset (by rw [hr2]; simp)
            -- peel the word prefix off the right-hand side
            have hstep : dropTrailWs (d :: r') = d :: dropTrailWs r' := by
              have h4 : dropTrailWs ([d] ++ r') = [d] ++ dropTrailWs r' :=
                dropTrailWs_append [d] r' ⟨e, her', he⟩
              simpa using h4
            have hrhs : dropTrailWs cs =
                cs.takeWhile (fun x => !x.isWhitespace) ++ d :: dropTrailWs r' := by
              conv_lhs => rw [← hsplit, hrr]
              rw [dropTrailWs_append _ _ ⟨e, List.mem_cons_of_mem d her', he⟩, hstep]
            rw [hrhs, collapseRuns_append_notWs _ _ hwall, collapseRuns_cons_ws d _ hd]
            -- commute the trailing trim with leading-whitespace removal
            have hdt2 : dropTrailWs (r'.dropWhile Char.isWhitespace) =
                e :: dropTrailWs t2 := by
              rw [hr2]
              exact dropTrailWs_cons_notWs e t2 he
            have hcomm : (dropTrailWs r').dropWhile Char.isWhitespace =
                dropTrailWs (r'.dropWhile Char.isWhitespace) := by
              have hsplit2 : r'.takeWhile Char.isWhitespace ++
                  r'.dropWhile Char.isWhitespace = r' := List.takeWhile_append_dropWhile _ _
              have htke : (r'.takeWhile Char.isWhitespace).dropWhile Char.isWhitespace = [] :=
                List.dropWhile_eq_nil_iff.mpr (fun a ha => List.mem_takeWhile_imp ha)
              conv_lhs => rw [← hsplit2]
              rw [dropTrailWs_append _ _ ⟨e, by rw [hr2]; simp, he⟩, hdt2,
                List.dropWhile_append, htke]
              simp [List.dropWhile_cons, he, hdt2]
            -- reshape the left-hand side into the next word plus the rest
            have hpwr : pyWords (d :: r') = pyWords (r'.dropWhile Char.isWhitespace) := by
              rw [pyWords_cons_ws d r' hd, ← pyWords_dropWhile_ws r']
            rw [hpwr, hr2, pyWords_cons_notWs e t2 he, joinWords_cons_cons,
              ← pyWords_cons_notWs e t2 he]
            -- apply the induction hypothesis to the shorter remainder
            have hlen5 : (e :: t2).length ≤ r'.length := by
              rw [← hr2]
              exact length_dropWhile_le _ _
            have hih := ih (e :: t2) (by omega)
            have htrim : trimWs (e :: t2) = dropTrailWs (e :: t2) := by
              unfold trimWs
              rw [List.dropWhile_cons, if_neg (by simp [he])]
            unfold normalizeChars at hih
            rw [htrim] at hih
            rw [hih, hcomm, hr2]
            simp
          · -- everything after the word is trailing whitespace
            have hall' : ∀ a ∈ r', a.isWhitespace = true := by
              intro a ha
              by_contra hb
              exact hex ⟨a, ha, by revert hb; cases a.isWhitespace <;> simp⟩
            have hall : ∀ a ∈ d :: r', a.isWhitespace = true := by
              intro a ha
              rcases List.mem_cons.mp ha with rfl | ha'
              · exact hd
              · exact hall' a ha'
            have hpw : pyWords (d :: r') = [] := pyWords_all_ws _ hall
            have hrhs : dropTrailWs cs = cs.takeWhile (fun x => !x.isWhitespace) := by
              conv_lhs => rw [← hsplit, hrr]
              rw [dropTrailWs_append_ws _ _ hall]
              exact dropTrailWs_all_notWs _ hwall
            rw [hpw, hrhs, collapseRuns_all_notWs _ hwall]
            rfl

/-! ### Helper lemmas about the scraper functions -/

theorem parse_owner_rows_append (pre rest : List Node)
    (h : ∀ r ∈ pre, rowIsOwnerMarker r = false) :
    parse_owner_rows (pre ++ rest) = parse_owner_rows rest := by
  induction pre with
  | nil => rfl
  | cons r rs ih =>
    rw [List.cons_append]
    simp only [parse_owner_rows, h r (List.mem_cons_self r rs), Bool.false_eq_true, if_false]
    exact ih (fun x hx => h x (List.mem_cons_of_mem r hx))

theorem parse_transfer_rows_append (pre rest : List Node)
    (h : ∀ r ∈ pre, rowIsTransferMarker r = false) :
    parse_transfer_rows (pre ++ rest) = parse_transfer_rows rest := by
  induction pre with
  | nil => rfl
  | cons r rs ih =>
    rw [List.cons_append]
    simp only [parse_transfer_rows, h r (List.mem_cons_self r rs), Bool.false_eq_true, if_false]
    exact ih (fun x hx => h x (List.mem_cons_of_mem r hx))

theorem ownerRowsTexts_error (rows : List Node)
    (h : ∃ r ∈ rows, (findAll (isTag "td") r).length < 2) :
    ownerRowsTexts rows = .error .indexError := by
  induction rows with
  | nil =>
    rcases h with ⟨r, hr, _⟩
    cases hr
  | cons row rs ih =>
    cases hcell : (findAll (isTag "td") row)[1]? with
    | none => simp [ownerRowsTexts, hcell]
    | some td =>
      have hlen : 2 ≤ (findAll (isTag "td") row).length := by
        rcases List.getElem?_eq_some.mp hcell with ⟨hlt, _⟩
        omega
      rcases h with ⟨r, hr, hrlen⟩
      rcases List.mem_cons.mp hr with rfl | hr'
      · omega
      · simp only [ownerRowsTexts, hcell, ih ⟨r, hr', hrlen⟩, Except.map]

theorem cellRecord_eq_spec (td : Node) : cellRecord td = cellRecordSpec td := by
  unfold cellRecord cellRecordSpec
  by_cases hq : (getTextStripChars brSep td).isEmpty = true
  · have hnil : getTextStripChars brSep td = [] := by simpa [List.isEmpty_iff] using hq
    rw [hnil]
    simp [pySplitOn, pySplitFuel]
  · rw [if_neg hq]
    cases hps : pySplitOn brSep (getTextStripChars brSep td) with
    | nil => simp [hps]
    | cons h t =>
      rcases t with _ | ⟨s2, t2⟩
      · simp [hps]
      · have hlen : 1 < (h :: s2 :: t2).length := by
          simp only [List.length_cons]
          omega
        simp only [hps, List.isEmpty_cons, List.headD_cons, hlen, true_and]
        cases hcont : validHeaders.contains (String.mk h) <;> simp [hcont]

/-! ### Claim theorems -/

/-- Claim C1: for every parsed document containing a `detailSearch` table
whose rows, in document order, hold an `"Owner Information"` header-cell
marker row (and no earlier one) followed by at least two rows each with
at least two data cells, `get_owner_info` returns the flattened list of
the second data cell's split segments of the two rows immediately
following the marker, first row's segments first, order preserved. -/
theorem get_owner_info_spec (doc table : Node) (pre : List Node) (m r1 r2 : Node)
    (rest : List Node) (cell1 cell2 : Node)
    (hdoc : get_table_data doc "detailSearch" = some table)
    (hrows : findAll (isTag "tr") table = pre ++ m :: r1 :: r2 :: rest)
    (hpre : ∀ r ∈ pre, rowIsOwnerMarker r = false)
    (hm : rowIsOwnerMarker m = true)
    (hc1 : (findAll (isTag "td") r1)[1]? = some cell1)
    (hc2 : (findAll (isTag "td") r2)[1]? = some cell2) :
    get_owner_info table = .ok (cellParts cell1 ++ cellParts cell2) := by
  unfold get_owner_info parse_owner_info
  rw [hrows, parse_owner_rows_append _ _ hpre]
  simp [parse_owner_rows, hm, ownerRowsTexts, hc1, hc2, Except.map]

/-- Witness for C1: on the sample document the owner lines are exactly the
segments of the two data rows following the marker. -/
theorem get_owner_info_spec_witness :
    get_owner_info sampleTable = Except.ok ["John Doe", "123 Main St", "Baltimore MD"] := by
  have h := get_owner_info_spec sampleDoc sampleTable [] ownerMarkerRow ownerRow1 ownerRow2
    [transferMarkerRow, transferRow, innerTr] ownerCell1 ownerCell2 rfl rfl (by simp) rfl rfl rfl
  rw [h]
  rfl

/-- Claim C10: when exactly one row follows the owner marker row and it
has at least two data cells, `get_owner_info` silently returns only that
row's second-cell segments, with no error. -/
theorem owner_info_single_row_truncation (table : Node) (pre : List Node) (m r : Node)
    (cell : Node)
    (hrows : findAll (isTag "tr") table = pre ++ [m, r])
    (hpre : ∀ x ∈ pre, rowIsOwnerMarker x = false)
    (hm : rowIsOwnerMarker m = true)
    (hc : (findAll (isTag "td") r)[1]? = some cell) :
    get_owner_info table = .ok (cellParts cell) := by
  unfold get_owner_info parse_owner_info
  rw [hrows, parse_owner_rows_append _ _ hpre]
  simp [parse_owner_rows, hm, ownerRowsTexts, hc, Except.map]

/-- Witness for C10: one data row after the marker yields just its own
segments, truncated with no error. -/
theorem owner_info_single_row_truncation_witness :
    get_owner_info singleRowOwnerTable = Except.ok ["John Doe", "123 Main St"] := by
  have h := owner_info_single_row_truncation singleRowOwnerTable [] ownerMarkerRow ownerRow1
    ownerCell1 rfl (by simp) rfl rfl
  rw [h]
  rfl

/-- Claim C3: when a `"Transfer Information"` marker row is found (and no
earlier one), extraction operates exactly on the table nested in the first
data cell of the row immediately after the marker, and `get_transfer_info`
returns every qualifying cell's full split-segment list in document order:
rows of the inner table in order, cells within each row in order. -/
theorem get_transfer_info_inner_spec (table : Node) (pre : List Node) (m r2 : Node)
    (rest : List Node) (td0 inner : Node)
    (hrows : findAll (isTag "tr") table = pre ++ m :: r2 :: rest)
    (hpre : ∀ r ∈ pre, rowIsTransferMarker r = false)
    (hm : rowIsTransferMarker m = true)
    (htd : findFirst (isTag "td") r2 = some td0)
    (hinner : findFirst (isTag "table") td0 = some inner) :
    parse_transfer_info table = .ok (some inner) ∧
    get_transfer_info table = .ok ((findAll (isTag "tr") inner).flatMap fun tr =>
      (findAll (isTag "td") tr).filterMap cellRecord) := by
  have hp : parse_transfer_info table = .ok (some inner) := by
    unfold parse_transfer_info
    rw [hrows, parse_transfer_rows_append _ _ hpre]
    simp [parse_transfer_rows, hm, htd, hinner]
  refine ⟨hp, ?_⟩
  unfold get_transfer_info
  rw [hp]

/-- Witness for C3: on the sample table the extraction reads the nested
inner table and reports its qualifying cells in order. -/
theorem get_transfer_info_inner_spec_witness :
    parse_transfer_info sampleTable = Except.ok (some innerTable) ∧
    get_transfer_info sampleTable = Except.ok [["Seller:", "Jane Roe"], ["Price:", "$100,000"]] := by
  have h := get_transfer_info_inner_spec sampleTable [ownerMarkerRow, ownerRow1, ownerRow2]
    transferMarkerRow transferRow [innerTr] transferCell innerTable rfl
    (by
      intro r hr
      simp only [List.mem_cons, List.not_mem_nil, or_false] at hr
      rcases hr with rfl | rfl | rfl <;> rfl)
    rfl rfl rfl
  refine ⟨h.1, ?_⟩
  rw [h.2]
  rfl

/-- Claim C2: a cell of the inner transfer table contributes its
split-segment list to the output exactly when the split yields more than
one segment and the first segment is one of the six fixed labels; every
other cell is silently skipped, with no error. -/
theorem get_transfer_info_filter_spec (table inner : Node)
    (h : parse_transfer_info table = .ok (some inner)) :
    get_transfer_info table = .ok ((findAll (isTag "tr") inner).flatMap fun tr =>
      (findAll (isTag "td") tr).filterMap cellRecordSpec) := by
  unfold get_transfer_info
  rw [h, funext cellRecord_eq_spec]

/-- Witness for C2: on the sample inner table the multi-segment labelled
cells are kept and the single-segment and unknown-label cells are
dropped. -/
theorem get_transfer_info_filter_spec_witness :
    get_transfer_info sampleTable = Except.ok [["Seller:", "Jane Roe"], ["Price:", "$100,000"]] := by
  have h := get_transfer_info_filter_spec sampleTable innerTable rfl
  rw [h]
  rfl

/-- Claim C4, counterexample: at a concrete well-formed document the
scrape call computes and prints both structures but its return value is
`None`, not the pair. -/
theorem scrape_returned_none_counterexample :
    (scrape sampleDoc).map ScrapeOutput.returned = Except.ok none ∧
    (scrape sampleDoc).map (fun o => (o.printedOwner, o.printedTransfer)) =
      Except.ok (["John Doe", "123 Main St", "Baltimore MD"],
        [["Seller:", "Jane Roe"], ["Price:", "$100,000"]]) :=
  ⟨rfl, rfl⟩

/-- Claim C4, amended: for every document on which both extractions
succeed, `scrape` prints the owner lines and the transfer records and
returns `None` to its caller (its body has no `return` statement). -/
theorem scrape_prints_and_returns_none (doc table : Node) (owner : List String)
    (transfer : List (List String))
    (h1 : get_table_data doc "detailSearch" = some table)
    (h2 : get_owner_info table = .ok owner)
    (h3 : get_transfer_info table = .ok transfer) :
    scrape doc = .ok ⟨owner, transfer, none⟩ := by
  unfold scrape
  rw [h1]
  simp only [h2, h3]

/-- Witness for amended C4. -/
theorem scrape_prints_and_returns_none_witness :
    scrape sampleDoc = Except.ok ⟨["John Doe", "123 Main St", "Baltimore MD"],
      [["Seller:", "Jane Roe"], ["Price:", "$100,000"]], none⟩ :=
  scrape_prints_and_returns_none sampleDoc sampleTable _ _ rfl rfl rfl

/-- Claim C5, counterexample: on a document with no `detailSearch` table
the locator returns `None` and `scrape` fails with an unguarded
`AttributeError`, not with the named `StructureNotFoundError` the claim
asserts. -/
theorem scrape_missing_table_counterexample :
    get_table_data noTableDoc "detailSearch" = none ∧
    scrape noTableDoc = Except.error PyErr.attributeError ∧
    PyErr.attributeError ≠ PyErr.structureNotFound :=
  ⟨rfl, rfl, by decide⟩

/-- Claim C5, amended: for every document with no `detailSearch` table,
`get_table_data` returns `None` and the scrape call crashes with an
unguarded `AttributeError` (the `None` is used as a table), extracting
nothing: a hard stop with no partial result, no retry, and no fallback,
but through an unnamed crash rather than a raised
`StructureNotFoundError`. -/
theorem scrape_missing_table_crashes (doc : Node)
    (h : get_table_data doc "detailSearch" = none) :
    scrape doc = Except.error PyErr.attributeError := by
  unfold scrape
  rw [h]

/-- Witness for amended C5. -/
theorem scrape_missing_table_crashes_witness :
    scrape noTableDoc = Except.error PyErr.attributeError :=
  scrape_missing_table_crashes noTableDoc rfl

/-- Claim C6: the marker match collapses internal whitespace runs to
single spaces and trims before comparing for exact equality with the
marker strings, only header cells are examined (a marker string in a data
cell does not trigger the section), and rows are scanned in document
order (the surrounding claims fix the first marker). -/
theorem marker_normalization_spec :
    (∀ s : String, normalize s = specNormalize s) ∧
    (∀ row : Node, rowIsOwnerMarker row = true ↔
      ∃ th ∈ findAll (isTag "th") row, normalizeChars (getTextChars th) = ownerMarker) ∧
    (∀ row : Node, rowIsTransferMarker row = true ↔
      ∃ th ∈ findAll (isTag "th") row, normalizeChars (getTextChars th) = transferMarker) ∧
    rowIsOwnerMarker tdMarkerRow = false ∧
    parse_owner_info tdMarkerTable = none := by
  refine ⟨fun s => ?_, fun row => ?_, fun row => ?_, rfl, rfl⟩
  · unfold normalize specNormalize
    rw [normalizeChars_eq_collapse_trim s.toList.length s.toList (Nat.le_refl _)]
  · simp [rowIsOwnerMarker, List.any_eq_true, beq_iff_eq]
  · simp [rowIsTransferMarker, List.any_eq_true, beq_iff_eq]

/-- Claim C7: the query parameters are the decimal representations
zero-padded to the fixed widths 2 (county, ward, section), 4 (block) and
3 (lot), with the constant search type `"ACCT"`; padding never alters the
digits, only prepends zeros up to the width. -/
theorem query_padding_spec :
    (∀ county ward sect block lot : Nat,
      formatQuery county ward sect block lot =
        [("search_type", "ACCT"), ("county", pad 2 county), ("ward", pad 2 ward),
         ("section", pad 2 sect), ("block", pad 4 block), ("lot", pad 3 lot)]) ∧
    (∀ w n : Nat,
      (pad w n).length = max w (toString n).length ∧
      (pad w n).data = List.replicate (w - (toString n).length) '0' ++ (toString n).data) ∧
    pad 2 3 = "03" ∧ pad 4 97 = "0097" ∧ pad 3 54 = "054" ∧ pad 2 16 = "16" ∧ pad 2 10 = "10" := by
  refine ⟨fun _ _ _ _ _ => rfl, fun w n => ⟨?_, ?_⟩, rfl, rfl, rfl, rfl, rfl⟩
  · show (String.mk (List.replicate (w - (toString n).length) '0') ++ toString n).length = _
    rw [String.length_append]
    simp only [String.length, List.length_replicate]
    omega
  · rfl

/-- Claim C8: scraping is deterministic and stateless; running the same
call twice over the same static document yields identical results, and
the scraper object's (empty) state is unchanged. -/
theorem scrape_idempotent (s0 : ScrapeSDATState) (doc : Node) :
    (scrapeSt (scrapeSt s0 doc).1 doc).2 = (scrapeSt s0 doc).2 ∧
    (scrapeSt s0 doc).1 = s0 :=
  ⟨rfl, rfl⟩

/-- Claim C9: when a marker section is found but the following rows or
cells do not match the expected shape — an owner data row with fewer than
two data cells, or a transfer marker followed by a row whose first cell
holds no nested table or no cell at all — extraction crashes with an
unguarded `IndexError` / `AttributeError` rather than a named, catchable
error. -/
theorem malformed_rows_crash (towner ttrans : Node) (rows pre : List Node) (m r2 : Node)
    (rest : List Node)
    (h1 : parse_owner_info towner = some rows)
    (h2 : ∃ r ∈ rows, (findAll (isTag "td") r).length < 2)
    (h3 : findAll (isTag "tr") ttrans = pre ++ m :: r2 :: rest)
    (h4 : ∀ r ∈ pre, rowIsTransferMarker r = false)
    (h5 : rowIsTransferMarker m = true)
    (h6 : findFirst (isTag "td") r2 = none ∨
      ∃ td0, findFirst (isTag "td") r2 = some td0 ∧ findFirst (isTag "table") td0 = none) :
    get_owner_info towner = .error .indexError ∧
    get_transfer_info ttrans = .error .attributeError := by
  constructor
  · unfold get_owner_info
    rw [h1]
    exact ownerRowsTexts_error rows h2
  · unfold get_transfer_info parse_transfer_info
    rw [h3, parse_transfer_rows_append _ _ h4]
    rcases h6 with h6 | ⟨td0, htd, hnone⟩
    · simp [parse_transfer_rows, h5, h6]
    · simp [parse_transfer_rows, h5, htd, hnone]

/-- Witness for C9: a one-cell owner row raises `IndexError`; a transfer
row whose first cell has no nested table raises `AttributeError`. -/
theorem malformed_rows_crash_witness :
    get_owner_info badOwnerTable = Except.error PyErr.indexError ∧
    get_transfer_info badTransferTable = Except.error PyErr.attributeError :=
  malformed_rows_crash badOwnerTable badTransferTable [badOwnerRow] [] transferMarkerRow
    badTransferRow [] rfl ⟨badOwnerRow, by simp, by decide⟩ rfl (by simp) rfl
    (Or.inr ⟨badTransferCell, rfl, rfl⟩)

end SDAT
